import Mathlib

/-!
# Verification of the D&D transcription bot's audio/transcript core

Shallow embedding of the repository's audio capture, resampling, WAV
serialisation, decode batching, scene assignment, chunk building and
chronology merging logic, together with theorems settling the frozen
claims about the natural-language specification.

JavaScript numbers are modelled exactly by `ℚ` (the source performs only
ring operations, comparisons, `Math.floor` and `Math.min` on them), byte
buffers by `List ℕ` with each entry a byte value, and strings by Lean
`String`.
-/

namespace DndBot

/-! ## Resampler (`AudioMixer.resample`, src/src/voice/audioStream.js:230-248)

`resample(samples, fromRate, toRate)` returns `samples` when the rates are
equal; otherwise it allocates `floor(samples.length / ratio)` outputs with
`ratio = fromRate / toRate` and fills index `i` with the linear
interpolation of the samples at `floor(i * ratio)` and
`min(floor(i * ratio) + 1, samples.length - 1)`.  The local bindings
`ratio`, `newLength`, `srcIndexFloor`, `srcIndexCeil` and `t` of the
source are lifted to named definitions so the theorems can refer to them.
Out-of-range reads in the source would produce `undefined`; the embedding
uses `List.getD _ _ 0`, and the in-bounds theorems below show the default
is never consulted. -/

def ratioQ (fromRate toRate : ℕ) : ℚ := (fromRate : ℚ) / (toRate : ℚ)

def resampleLen (len fromRate toRate : ℕ) : ℕ :=
  Nat.floor ((len : ℚ) / ratioQ fromRate toRate)

def srcFloor (fromRate toRate i : ℕ) : ℕ :=
  Nat.floor ((i : ℚ) * ratioQ fromRate toRate)

def srcCeil (len fromRate toRate i : ℕ) : ℕ :=
  min (srcFloor fromRate toRate i + 1) (len - 1)

def srcFrac (fromRate toRate i : ℕ) : ℚ :=
  (i : ℚ) * ratioQ fromRate toRate - (srcFloor fromRate toRate i : ℚ)

def resample (samples : List ℚ) (fromRate toRate : ℕ) : List ℚ :=
  if fromRate = toRate then samples
  else
    (List.range (resampleLen samples.length fromRate toRate)).map (fun i =>
      samples.getD (srcFloor fromRate toRate i) 0 * (1 - srcFrac fromRate toRate i) +
        samples.getD (srcCeil samples.length fromRate toRate i) 0 * srcFrac fromRate toRate i)

/-- Both indices read by output sample `i` of `resample` are in bounds. -/
lemma resample_index_bounds (len fromRate toRate : ℕ)
    (hf : 0 < fromRate) (ht : 0 < toRate) (i : ℕ)
    (hi : i < resampleLen len fromRate toRate) :
    srcFloor fromRate toRate i < len ∧ srcCeil len fromRate toRate i < len := by
  have hr : 0 < ratioQ fromRate toRate := by
    apply div_pos
    · exact_mod_cast hf
    · exact_mod_cast ht
  have hle : ((i : ℚ) + 1) ≤ (len : ℚ) / ratioQ fromRate toRate := by
    have h1 : i + 1 ≤ Nat.floor ((len : ℚ) / ratioQ fromRate toRate) := hi
    have h2 := (Nat.le_floor_iff (n := i + 1)
      (div_nonneg (by positivity) hr.le)).mp h1
    push_cast at h2
    linarith
  have hmul : ((i : ℚ) + 1) * ratioQ fromRate toRate ≤ (len : ℚ) :=
    (le_div_iff₀ hr).mp hle
  have hsrc : (i : ℚ) * ratioQ fromRate toRate < (len : ℚ) := by nlinarith
  have hfl : srcFloor fromRate toRate i < len := by
    have h0 : (0 : ℚ) ≤ (i : ℚ) * ratioQ fromRate toRate := by positivity
    exact (Nat.floor_lt h0).mpr hsrc
  have hlen : 0 < len := by omega
  exact ⟨hfl, by unfold srcCeil; omega⟩

/-- C10: for positive rates every array read performed by `resample` is in
bounds — the upper bracketing index is clamped to the last sample, so no
output index causes an out-of-range access. -/
theorem resample_reads_in_bounds (samples : List ℚ) (fromRate toRate : ℕ)
    (hf : 0 < fromRate) (ht : 0 < toRate) :
    ∀ i < resampleLen samples.length fromRate toRate,
      srcFloor fromRate toRate i < samples.length ∧
        srcCeil samples.length fromRate toRate i < samples.length := by
  intro i hi
  exact resample_index_bounds samples.length fromRate toRate hf ht i hi

/-- Witness for `resample_reads_in_bounds` at `samples = [1, 2, 3]`,
`fromRate = 3`, `toRate = 2`, output index `i = 1`. -/
theorem resample_reads_in_bounds_witness :
    srcFloor 3 2 1 < ([1, 2, 3] : List ℚ).length ∧
      srcCeil ([1, 2, 3] : List ℚ).length 3 2 1 < ([1, 2, 3] : List ℚ).length :=
  resample_reads_in_bounds [1, 2, 3] 3 2 (by decide) (by decide) 1
    (by norm_num [resampleLen, ratioQ])

/-- C3: `resample` is the identity when the rates agree, its output length
is exactly `⌊len / (fromRate / toRate)⌋`, and each output index is the
linear interpolation of the two bracketing source samples. -/
theorem resample_spec (samples : List ℚ) (fromRate toRate : ℕ)
    (hf : 0 < fromRate) (ht : 0 < toRate) :
    resample samples fromRate fromRate = samples ∧
    (resample samples fromRate toRate).length =
      resampleLen samples.length fromRate toRate ∧
    (fromRate ≠ toRate →
      ∀ (i : ℕ) (hi : i < (resample samples fromRate toRate).length),
        ∃ (h1 : srcFloor fromRate toRate i < samples.length)
          (h2 : srcCeil samples.length fromRate toRate i < samples.length),
          (resample samples fromRate toRate).get ⟨i, hi⟩ =
            samples.get ⟨srcFloor fromRate toRate i, h1⟩ *
                (1 - srcFrac fromRate toRate i) +
              samples.get ⟨srcCeil samples.length fromRate toRate i, h2⟩ *
                srcFrac fromRate toRate i) := by
  refine ⟨by simp [resample], ?_, ?_⟩
  · by_cases h : fromRate = toRate
    · subst h
      have hone : ratioQ fromRate fromRate = 1 := by
        apply div_self
        exact_mod_cast hf.ne'
      simp [resample, resampleLen, hone]
    · simp [resample, h]
  · intro hne i hi
    have hlen : (resample samples fromRate toRate).length =
        resampleLen samples.length fromRate toRate := by
      simp [resample, hne]
    rw [hlen] at hi
    obtain ⟨h1, h2⟩ :=
      resample_index_bounds samples.length fromRate toRate hf ht i hi
    refine ⟨h1, h2, ?_⟩
    simp only [resample, if_neg hne, List.get_eq_getElem, List.getElem_map,
      List.getElem_range]
    rw [List.getD_eq_getElem _ _ h1, List.getD_eq_getElem _ _ h2]

/-- Witness for `resample_spec` at `samples = [1, 2, 3, 4]`,
`fromRate = 2`, `toRate = 1` (ratio 2: output `[1, 3]`). -/
theorem resample_spec_witness :
    resample [1, 2, 3, 4] 2 2 = [1, 2, 3, 4] ∧
    (resample [1, 2, 3, 4] 2 1).length =
      resampleLen ([1, 2, 3, 4] : List ℚ).length 2 1 ∧
    ((2 : ℕ) ≠ 1 →
      ∀ (i : ℕ) (hi : i < (resample [1, 2, 3, 4] 2 1).length),
        ∃ (h1 : srcFloor 2 1 i < ([1, 2, 3, 4] : List ℚ).length)
          (h2 : srcCeil ([1, 2, 3, 4] : List ℚ).length 2 1 i < ([1, 2, 3, 4] : List ℚ).length),
          (resample [1, 2, 3, 4] 2 1).get ⟨i, hi⟩ =
            ([1, 2, 3, 4] : List ℚ).get ⟨srcFloor 2 1 i, h1⟩ *
                (1 - srcFrac 2 1 i) +
              ([1, 2, 3, 4] : List ℚ).get ⟨srcCeil ([1, 2, 3, 4] : List ℚ).length 2 1 i, h2⟩ *
                srcFrac 2 1 i) :=
  resample_spec [1, 2, 3, 4] 2 1 (by decide) (by decide)

/-! ## WAV serialisation (`AudioMixer`, src/src/voice/audioStream.js:250-324)

Byte buffers are `List ℕ`; `u16le`/`u32le` are the little-endian encodings
used by `writeUInt16LE`/`writeUInt32LE`, and `int16le` the two's-complement
encoding of `writeInt16LE`. -/

def u16le (v : ℕ) : List ℕ := [v % 256, v / 256 % 256]

def u32le (v : ℕ) : List ℕ :=
  [v % 256, v / 256 % 256, v / 65536 % 256, v / 16777216 % 256]

def int16le (v : ℤ) : List ℕ :=
  let w : ℕ := (v % 65536).toNat
  [w % 256, w / 256]

/-- Little-endian read of 2 bytes at `off` (with `0` past the end). -/
def readU16 (bs : List ℕ) (off : ℕ) : ℕ :=
  bs.getD off 0 + 256 * bs.getD (off + 1) 0

/-- Little-endian read of 4 bytes at `off` (with `0` past the end). -/
def readU32 (bs : List ℕ) (off : ℕ) : ℕ :=
  bs.getD off 0 + 256 * bs.getD (off + 1) 0 + 65536 * bs.getD (off + 2) 0 +
    16777216 * bs.getD (off + 3) 0

/-- `createWavHeader(dataSize, sampleRate, channels, bitsPerSample)`
(src/src/voice/audioStream.js:266-291): the fixed 44-byte RIFF/WAVE header.
The ASCII literals are `"RIFF"`, `"WAVE"`, `"fmt "`, `"data"`. -/
def createWavHeader (dataSize sampleRate channels bitsPerSample : ℕ) : List ℕ :=
  let byteRate := sampleRate * channels * (bitsPerSample / 8)
  let blockAlign := channels * (bitsPerSample / 8)
  [82, 73, 70, 70] ++ u32le (36 + dataSize) ++ [87, 65, 86, 69] ++
    [102, 109, 116, 32] ++ u32le 16 ++ u16le 1 ++ u16le channels ++
    u32le sampleRate ++ u32le byteRate ++ u16le blockAlign ++
    u16le bitsPerSample ++ [100, 97, 116, 97] ++ u32le dataSize

/-- `saveToWav`'s `Buffer.concat([header, pcmData])`
(src/src/voice/audioStream.js:296-324): header computed from the PCM
payload size followed by the payload. -/
def wavBytes (pcmData : List ℕ) (sampleRate : ℕ) : List ℕ :=
  createWavHeader pcmData.length sampleRate 1 16 ++ pcmData

/-- The container built from a list of int16 samples: the payload is the
little-endian serialisation of the samples. -/
def wavFromSamples (samples : List ℤ) (sampleRate : ℕ) : List ℕ :=
  wavBytes (samples.flatMap int16le) sampleRate

lemma length_flatMap_int16le (samples : List ℤ) :
    (samples.flatMap int16le).length = 2 * samples.length := by
  induction samples with
  | nil => simp
  | cons v vs ih => simp [int16le, ih]; omega

lemma u32le_readU32 (v : ℕ) (rest : List ℕ) (hv : v < 4294967296) :
    readU32 (u32le v ++ rest) 0 = v := by
  simp [readU32, u32le]
  omega

/-- C4: the container built from `N` int16 samples at rate `R` has length
`44 + 2N`, carries the four ASCII tags at offsets 0, 8, 12 and 36, stores
`36 + dataSize` at offset 4, `R` at offset 24 and `dataSize = 2N` at
offset 40, and is followed by exactly the little-endian int16 samples. -/
theorem wav_container_spec (samples : List ℤ) (r : ℕ)
    (hr : r < 4294967296) (hn : 36 + 2 * samples.length < 4294967296) :
    (wavFromSamples samples r).length = 44 + 2 * samples.length ∧
    (wavFromSamples samples r).take 4 = [82, 73, 70, 70] ∧
    readU32 (wavFromSamples samples r) 4 = 36 + 2 * samples.length ∧
    ((wavFromSamples samples r).drop 8).take 4 = [87, 65, 86, 69] ∧
    ((wavFromSamples samples r).drop 12).take 4 = [102, 109, 116, 32] ∧
    readU32 (wavFromSamples samples r) 24 = r ∧
    ((wavFromSamples samples r).drop 36).take 4 = [100, 97, 116, 97] ∧
    readU32 (wavFromSamples samples r) 40 = 2 * samples.length ∧
    (wavFromSamples samples r).drop 44 = samples.flatMap int16le := by
  have hdata := length_flatMap_int16le samples
  constructor
  · simp [wavFromSamples, wavBytes, createWavHeader, u16le, u32le, hdata]
    omega
  refine ⟨?_, ?_, ?_, ?_, ?_, ?_, ?_, ?_⟩ <;>
    · simp [wavFromSamples, wavBytes, createWavHeader, u16le, u32le,
        readU32, hdata]
      try omega

/-- Witness for `wav_container_spec` at `samples = [0, -1, 32767]`,
`r = 16000`. -/
theorem wav_container_spec_witness :
    (wavFromSamples [0, -1, 32767] 16000).length = 44 + 2 * 3 ∧
    (wavFromSamples [0, -1, 32767] 16000).take 4 = [82, 73, 70, 70] ∧
    readU32 (wavFromSamples [0, -1, 32767] 16000) 4 = 36 + 2 * 3 ∧
    ((wavFromSamples [0, -1, 32767] 16000).drop 8).take 4 = [87, 65, 86, 69] ∧
    ((wavFromSamples [0, -1, 32767] 16000).drop 12).take 4 = [102, 109, 116, 32] ∧
    readU32 (wavFromSamples [0, -1, 32767] 16000) 24 = 16000 ∧
    ((wavFromSamples [0, -1, 32767] 16000).drop 36).take 4 = [100, 97, 116, 97] ∧
    readU32 (wavFromSamples [0, -1, 32767] 16000) 40 = 2 * 3 ∧
    (wavFromSamples [0, -1, 32767] 16000).drop 44 =
      ([0, -1, 32767] : List ℤ).flatMap int16le := by
  have h := wav_container_spec [0, -1, 32767] 16000 (by decide) (by decide)
  simpa using h

/-! ## Silent-container fallback (`VoiceRecorder`, src/unnamed/part_004 and
src/src/voice/recorder.js)

`createEmptyWav` allocates a zero-filled buffer of `44 + dataSize` bytes
with `dataSize = 16000 * 1 * (16/8) * 1 = 32000` and writes the same
header fields as `createWavHeader` into its first 44 bytes, leaving the
32000 data bytes zero (one second of silent 16-bit mono at 16 kHz). -/

def createEmptyWavBytes : List ℕ :=
  let sampleRate := 16000
  let channels := 1
  let bitsPerSample := 16
  let duration := 1
  let dataSize := sampleRate * channels * (bitsPerSample / 8) * duration
  createWavHeader dataSize sampleRate channels bitsPerSample ++
    List.replicate dataSize 0

/-- `VoiceRecorder.stop()` (src/unnamed/part_004:102-143): with zero
collected packets it writes the empty WAV and returns its path; otherwise
it returns `saveToWav`'s bytes, falling back to the empty WAV if the save
throws.  The returned value models the bytes of the file whose path the
method returns; the method itself never fails. -/
def recorderStopWav (packetCount : ℕ)
    (saveResult : Except String (List ℕ)) : List ℕ :=
  if packetCount = 0 then createEmptyWavBytes
  else
    match saveResult with
    | .ok bytes => bytes
    | .error _ => createEmptyWavBytes

/-- C5: with zero collected frames, `stop()` succeeds and produces the
fixed 1-second silent container: 44 + 32000 bytes, mono, 16 kHz,
`dataSize = 32000`, all data bytes zero. -/
lemma createEmptyWavBytes_eq :
    createEmptyWavBytes =
      createWavHeader 32000 16000 1 16 ++ List.replicate 32000 0 := rfl

lemma readU16_append_left (l1 l2 : List ℕ) (off : ℕ) (h : off + 1 < l1.length) :
    readU16 (l1 ++ l2) off = readU16 l1 off := by
  unfold readU16
  rw [List.getD_append _ _ _ _ (by omega), List.getD_append _ _ _ _ (by omega)]

lemma readU32_append_left (l1 l2 : List ℕ) (off : ℕ) (h : off + 3 < l1.length) :
    readU32 (l1 ++ l2) off = readU32 l1 off := by
  unfold readU32
  rw [List.getD_append _ _ _ _ (by omega), List.getD_append _ _ _ _ (by omega),
    List.getD_append _ _ _ _ (by omega), List.getD_append _ _ _ _ (by omega)]

lemma emptyWavHeader_length : (createWavHeader 32000 16000 1 16).length = 44 := by
  decide

theorem stop_empty_fallback (saveResult : Except String (List ℕ)) :
    recorderStopWav 0 saveResult = createEmptyWavBytes ∧
    createEmptyWavBytes.length = 44 + 32000 ∧
    readU32 createEmptyWavBytes 24 = 16000 ∧
    readU16 createEmptyWavBytes 22 = 1 ∧
    readU16 createEmptyWavBytes 34 = 16 ∧
    readU32 createEmptyWavBytes 40 = 32000 ∧
    createEmptyWavBytes.drop 44 = List.replicate 32000 0 := by
  rw [createEmptyWavBytes_eq]
  refine ⟨rfl, ?_, ?_, ?_, ?_, ?_, ?_⟩
  · rw [List.length_append, emptyWavHeader_length, List.length_replicate]
  · rw [readU32_append_left _ _ _ (by rw [emptyWavHeader_length]; omega)]
    decide
  · rw [readU16_append_left _ _ _ (by rw [emptyWavHeader_length]; omega)]
    decide
  · rw [readU16_append_left _ _ _ (by rw [emptyWavHeader_length]; omega)]
    decide
  · rw [readU32_append_left _ _ _ (by rw [emptyWavHeader_length]; omega)]
    decide
  · have h44 : (44 : ℕ) = (createWavHeader 32000 16000 1 16).length := by
      rw [emptyWavHeader_length]
    rw [h44, List.drop_left]

/-! ## Batch Opus decoding (`AudioMixer.decodeOpusPackets`,
src/src/voice/audioStream.js:155-225)

The WASM Opus decoder is modelled by a function
`dec : ℕ → Option (List ℚ × Option (List ℚ))` from a packet to its decoded
left channel and optional right channel; `none` covers both a thrown
`decodeFrame` (counted in `errorCount`) and a result without usable
`channelData` (the source skips those without counting; the claim only
concerns decode failures, which the embedding counts like the source's
`catch`).  Stereo is downmixed to mono by per-sample averaging, the right
channel defaulting to the left. -/

def downmix (left : List ℚ) (right : Option (List ℚ)) : List ℚ :=
  let r := right.getD left
  (List.range left.length).map (fun i => (left.getD i 0 + r.getD i 0) / 2)

structure DecodeResult where
  samples : List ℚ
  decodedCount : ℕ
  errorCount : ℕ
  deriving Repr, DecidableEq

/-- `decodeOpusPackets`: throws `No audio packets collected` on an empty
batch; otherwise decodes every packet, skipping and counting failures,
concatenates the mono chunks, and throws `No audio could be decoded` iff
no packet decoded. -/
def decodeOpusPackets (dec : ℕ → Option (List ℚ × Option (List ℚ)))
    (allPackets : List ℕ) : Except String DecodeResult :=
  if allPackets = [] then .error "No audio packets collected"
  else
    let pcmChunks := allPackets.filterMap
      (fun p => (dec p).map (fun d => downmix d.1 d.2))
    if pcmChunks = [] then .error "No audio could be decoded"
    else
      .ok ⟨pcmChunks.flatten, pcmChunks.length,
        (allPackets.filter (fun p => (dec p).isNone)).length⟩

def isOkE {ε α : Type} : Except ε α → Bool
  | .ok _ => true
  | .error _ => false

lemma decodeOpusPackets_ok (dec : ℕ → Option (List ℚ × Option (List ℚ)))
    (ps : List ℕ) (hne : ps ≠ [])
    (hch : ps.filterMap (fun p => (dec p).map (fun d => downmix d.1 d.2)) ≠ []) :
    decodeOpusPackets dec ps = .ok
      ⟨(ps.filterMap (fun p => (dec p).map (fun d => downmix d.1 d.2))).flatten,
        (ps.filterMap (fun p => (dec p).map (fun d => downmix d.1 d.2))).length,
        (ps.filter (fun p => (dec p).isNone)).length⟩ := by
  simp only [decodeOpusPackets]
  rw [if_neg hne, if_neg hch]

/-- C6: the batch decode fails iff zero packets decode successfully, and a
single failing packet never aborts the batch — removing it from the batch
leaves the decoded samples and success count unchanged and lowers the
failure count by one. -/
theorem decode_batch_spec (dec : ℕ → Option (List ℚ × Option (List ℚ)))
    (ps xs ys : List ℕ) (bad : ℕ) (hbad : dec bad = none) :
    (isOkE (decodeOpusPackets dec ps) = true ↔ ∃ p ∈ ps, (dec p).isSome) ∧
    isOkE (decodeOpusPackets dec (xs ++ bad :: ys)) =
      isOkE (decodeOpusPackets dec (xs ++ ys)) ∧
    ((decodeOpusPackets dec (xs ++ bad :: ys)).toOption.map
        (fun r => (r.samples, r.decodedCount)) =
      (decodeOpusPackets dec (xs ++ ys)).toOption.map
        (fun r => (r.samples, r.decodedCount))) ∧
    ((decodeOpusPackets dec (xs ++ bad :: ys)).toOption.map
        (fun r => r.errorCount) =
      (decodeOpusPackets dec (xs ++ ys)).toOption.map
        (fun r => r.errorCount + 1)) := by
  have hchunks :
      (xs ++ bad :: ys).filterMap (fun p => (dec p).map (fun d => downmix d.1 d.2)) =
        (xs ++ ys).filterMap (fun p => (dec p).map (fun d => downmix d.1 d.2)) := by
    simp [List.filterMap_append, hbad]
  refine ⟨?_, ?_⟩
  · constructor
    · intro h
      by_contra hnone
      push_neg at hnone
      have hall : ps.filterMap (fun p => (dec p).map (fun d => downmix d.1 d.2)) = [] := by
        rw [List.filterMap_eq_nil_iff]
        intro p hp
        have hdp : dec p = none := by
          cases hdp : dec p with
          | none => rfl
          | some v => exact absurd (by simp [hdp]) (hnone p hp)
        simp [hdp]
      by_cases hps : ps = []
      · simp [decodeOpusPackets, hps, isOkE] at h
      · simp [decodeOpusPackets, hps, hall, isOkE] at h
    · rintro ⟨p, hp, hsome⟩
      have hne : ps ≠ [] := by
        rintro rfl
        simp at hp
      obtain ⟨v, hv⟩ := Option.isSome_iff_exists.mp hsome
      have hmem : downmix v.1 v.2 ∈
          ps.filterMap (fun p => (dec p).map (fun d => downmix d.1 d.2)) :=
        List.mem_filterMap.mpr ⟨p, hp, by simp [hv]⟩
      have hchne : ps.filterMap (fun p => (dec p).map (fun d => downmix d.1 d.2)) ≠ [] := by
        intro hc
        rw [hc] at hmem
        simp at hmem
      simp [decodeOpusPackets, hne, hchne, isOkE]
  by_cases hxy : xs ++ ys = []
  · have hx : xs = [] := by cases xs <;> simp_all
    subst hx
    simp only [List.nil_append] at hxy
    subst hxy
    refine ⟨?_, ?_, ?_⟩ <;> simp [decodeOpusPackets, hbad, isOkE, Except.toOption]
  · have hne1 : xs ++ bad :: ys ≠ [] := by
      cases xs <;> simp
    by_cases hch :
        (xs ++ ys).filterMap (fun p => (dec p).map (fun d => downmix d.1 d.2)) = []
    · have hch1 :
          (xs ++ bad :: ys).filterMap (fun p => (dec p).map (fun d => downmix d.1 d.2)) = [] := by
        rw [hchunks]; exact hch
      have he1 : decodeOpusPackets dec (xs ++ bad :: ys) =
          .error "No audio could be decoded" := by
        simp only [decodeOpusPackets]
        rw [if_neg hne1, if_pos hch1]
      have he2 : decodeOpusPackets dec (xs ++ ys) =
          .error "No audio could be decoded" := by
        simp only [decodeOpusPackets]
        rw [if_neg hxy, if_pos hch]
      rw [he1, he2]
      refine ⟨rfl, ?_, ?_⟩ <;> simp [Except.toOption]
    · have hch1 :
          (xs ++ bad :: ys).filterMap (fun p => (dec p).map (fun d => downmix d.1 d.2)) ≠ [] := by
        rw [hchunks]; exact hch
      rw [decodeOpusPackets_ok dec _ hne1 hch1, decodeOpusPackets_ok dec _ hxy hch]
      refine ⟨rfl, ?_, ?_⟩ <;>
        · simp [Except.toOption, hchunks, List.filter_append, List.filter_cons, hbad]
          try omega

/-- Witness for `decode_batch_spec`: decoder succeeding exactly on packet
`1`, batch `[0, 1]`, and failing packet `0` removed from `[0] ++ [1]`. -/
theorem decode_batch_spec_witness :
    (isOkE (decodeOpusPackets
        (fun p => if p = 1 then some ([1, 2], none) else none) [0, 1]) = true ↔
      ∃ p ∈ [0, 1],
        ((fun p => if p = 1 then some (([1, 2] : List ℚ), (none : Option (List ℚ)))
          else none) p).isSome) ∧
    isOkE (decodeOpusPackets
        (fun p => if p = 1 then some ([1, 2], none) else none) ([] ++ 0 :: [1])) =
      isOkE (decodeOpusPackets
        (fun p => if p = 1 then some ([1, 2], none) else none) ([] ++ [1])) ∧
    ((decodeOpusPackets (fun p => if p = 1 then some ([1, 2], none) else none)
          ([] ++ 0 :: [1])).toOption.map (fun r => (r.samples, r.decodedCount)) =
      (decodeOpusPackets (fun p => if p = 1 then some ([1, 2], none) else none)
          ([] ++ [1])).toOption.map (fun r => (r.samples, r.decodedCount))) ∧
    ((decodeOpusPackets (fun p => if p = 1 then some ([1, 2], none) else none)
          ([] ++ 0 :: [1])).toOption.map (fun r => r.errorCount) =
      (decodeOpusPackets (fun p => if p = 1 then some ([1, 2], none) else none)
          ([] ++ [1])).toOption.map (fun r => r.errorCount + 1)) :=
  decode_batch_spec (fun p => if p = 1 then some ([1, 2], none) else none)
    [0, 1] [] [1] 0 (by decide)

/-! ## Packet store and the checkpoint drain
(src/src/voice/audioStream.js:18-46, src/unnamed/part_004:206-225)

Frames are appended by per-speaker `opusStream.on('data')` handlers.
`runCheckpoint` executes `await saveToWav(path)` followed by
`clearUserPackets()`.  `saveToWav → decodeOpusPackets` reads the entire
packet map synchronously on entry (one atomic snapshot), after which the
decoder imports, decoding and the file write all `await`, so the event
loop may run `data` handlers — frames can be appended between the snapshot
and the clear.  `clearUserPackets` is part of the newer `AudioMixer` whose
file is not in the snapshot; modelled from the spec/caller (`azzera i
pacchetti`): it empties every speaker bucket.

The interleaving is modelled by a trace of atomic micro-events on a state
holding the append-ordered packet log (pairs of speaker and frame id) and
the snapshot taken by `saveToWav`. -/

structure MixSt where
  buckets : List (ℕ × ℕ)
  saved : List (ℕ × ℕ)
  deriving Repr, DecidableEq

inductive MixEv where
  | append (u f : ℕ)
  | snap
  | clearPackets
  deriving Repr, DecidableEq

def mixStep (s : MixSt) : MixEv → MixSt
  | .append u f => { s with buckets := s.buckets ++ [(u, f)] }
  | .snap => { s with saved := s.buckets }
  | .clearPackets => { s with buckets := [] }

def mixRun (s : MixSt) (evs : List MixEv) : MixSt := evs.foldl mixStep s

/-- The checkpoint drain as executed by `runCheckpoint`: the frames in
`pre` arrive before the snapshot, the frames in `win` arrive in the
`await` window between the snapshot and `clearUserPackets()`. -/
def checkpointTrace (pre win : List (ℕ × ℕ)) : List MixEv :=
  (pre.map (fun p => MixEv.append p.1 p.2)) ++ [MixEv.snap] ++
    (win.map (fun p => MixEv.append p.1 p.2)) ++ [MixEv.clearPackets]

/-- The `stop()` path (src/unnamed/part_004:102-143): `saveToWav` snapshots
the packets but nothing ever clears the buckets. -/
def stopTrace (pre : List (ℕ × ℕ)) : List MixEv :=
  (pre.map (fun p => MixEv.append p.1 p.2)) ++ [MixEv.snap]

/-- C1 counterexample: with one frame appended before the drain and one
frame arriving during the drain's `await` window, the drained (snapshot)
contents hold only the first frame, the buffer afterwards is empty, and
the in-window frame `(1, 20)` is in neither — it is lost, contradicting
"a frame arriving during the drain lands in the new buffer ... no frame
is lost". -/
theorem drain_loses_window_frame :
    mixRun ⟨[], []⟩ (checkpointTrace [(1, 10)] [(1, 20)]) =
      ⟨[], [(1, 10)]⟩ ∧
    ¬((1, 20) ∈ (mixRun ⟨[], []⟩ (checkpointTrace [(1, 10)] [(1, 20)])).saved ∨
      (1, 20) ∈ (mixRun ⟨[], []⟩ (checkpointTrace [(1, 10)] [(1, 20)])).buckets) := by
  constructor <;> decide

lemma mixRun_appends (s : MixSt) (l : List (ℕ × ℕ)) :
    mixRun s (l.map (fun p => MixEv.append p.1 p.2)) =
      { s with buckets := s.buckets ++ l } := by
  induction l generalizing s with
  | nil => simp [mixRun]
  | cons p l ih =>
      simp only [List.map_cons, mixRun, List.foldl_cons]
      have := ih (mixStep s (MixEv.append p.1 p.2))
      simp only [mixRun] at this
      rw [this]
      simp [mixStep]

/-- C1 amended: the checkpoint drain saves exactly the frames present at
its snapshot (each exactly once, no duplication) and leaves the buffered
count at 0, but every frame arriving in the window between the snapshot
and the clear is discarded — it lands neither in the drained contents nor
in the new buffer; the `stop()` path snapshots the same way but never
clears the buckets at all. -/
theorem checkpoint_drain_amended (pre win : List (ℕ × ℕ)) :
    mixRun ⟨[], []⟩ (checkpointTrace pre win) = ⟨[], pre⟩ ∧
    (mixRun ⟨[], []⟩ (checkpointTrace pre win)).buckets.length = 0 ∧
    (∀ p ∈ win, p ∉ pre →
      p ∉ (mixRun ⟨[], []⟩ (checkpointTrace pre win)).saved ∧
      p ∉ (mixRun ⟨[], []⟩ (checkpointTrace pre win)).buckets) ∧
    mixRun ⟨[], []⟩ (stopTrace pre) = ⟨pre, pre⟩ := by
  have hrun : mixRun ⟨[], []⟩ (checkpointTrace pre win) = ⟨[], pre⟩ := by
    simp only [checkpointTrace, mixRun, List.foldl_append]
    have h1 := mixRun_appends ⟨[], []⟩ pre
    simp only [mixRun] at h1
    rw [h1]
    simp only [List.foldl_cons, List.foldl_nil, mixStep]
    have h2 := mixRun_appends ⟨([] : List (ℕ × ℕ)) ++ pre, ([] : List (ℕ × ℕ)) ++ pre⟩ win
    simp only [mixRun] at h2
    rw [h2]
    simp
  refine ⟨hrun, by simp [hrun], ?_, ?_⟩
  · intro p _ hp
    rw [hrun]
    exact ⟨hp, by simp⟩
  · simp only [stopTrace, mixRun, List.foldl_append]
    have h1 := mixRun_appends ⟨[], []⟩ pre
    simp only [mixRun] at h1
    rw [h1]
    simp [mixStep]

/-! ## Checkpoint/stop drain-and-encode interleaving (src/unnamed/part_004)

`runCheckpoint()` (lines 206-225) runs synchronously through its guard
`if (!this.isRecording || this.mixer.getPacketCount() === 0) return;` and
`++this.checkpointCount`, then `await`s `saveToWav` (the drain-and-encode)
and only afterwards clears the packets.  `stop()` (lines 102-143) runs
synchronously — before its first `await` — through `isRecording = false`,
`clearInterval(checkpointTimer)` and the packet-count check, then `await`s
its own `saveToWav`.  Neither method holds a lock: nothing stops `stop()`
(or another timer firing) from starting a `saveToWav` while a checkpoint's
`saveToWav` is still awaited.

The state records the fields the two methods touch plus `inflight`, the
number of drain-and-encodes currently awaited, and its high-water mark
`maxInflight`.  Each event is one synchronous segment between `await`
boundaries: `checkpointFire` is the timer firing (guarded by the live
timer and `runCheckpoint`'s own check) up to the `saveToWav` call,
`checkpointDone` its resolution followed by `clearUserPackets()`,
`stopBegin` the synchronous prefix of `stop()` up to its `saveToWav` call
(no drain when the packet count is zero — the empty-WAV path), `stopDone`
its resolution, and `appendFrames` arrival of frames. -/

structure RecSt where
  isRecording : Bool
  timerActive : Bool
  checkpointCount : ℕ
  packetCount : ℕ
  inflight : ℕ
  maxInflight : ℕ
  deriving Repr, DecidableEq

inductive RecEv where
  | checkpointFire
  | checkpointDone
  | stopBegin
  | stopDone
  | appendFrames (n : ℕ)
  deriving Repr, DecidableEq

def recStep (s : RecSt) : RecEv → RecSt
  | .checkpointFire =>
      if s.timerActive = false ∨ s.isRecording = false ∨ s.packetCount = 0 then s
      else
        { s with checkpointCount := s.checkpointCount + 1,
                 inflight := s.inflight + 1,
                 maxInflight := max s.maxInflight (s.inflight + 1) }
  | .checkpointDone =>
      { s with inflight := s.inflight - 1, packetCount := 0 }
  | .stopBegin =>
      if s.packetCount = 0 then
        { s with isRecording := false, timerActive := false }
      else
        { s with isRecording := false, timerActive := false,
                 inflight := s.inflight + 1,
                 maxInflight := max s.maxInflight (s.inflight + 1) }
  | .stopDone => { s with inflight := s.inflight - 1 }
  | .appendFrames n => { s with packetCount := s.packetCount + n }

def recRun (s : RecSt) (evs : List RecEv) : RecSt := evs.foldl recStep s

/-- A live recording session with buffered packets. -/
def recInit : RecSt :=
  { isRecording := true, timerActive := true, checkpointCount := 0,
    packetCount := 5, inflight := 0, maxInflight := 0 }

/-- C2 counterexample: from a live session, a checkpoint fires and, while
its `saveToWav` is still awaited, `stop()` is invoked: `stop` has no guard
besides its own packet-count check, so it starts a second `saveToWav` and
two drain-and-encodes are in flight at once — refuting "at most one
drain-and-encode runs at a time per session".  Two interval firings with
the first's save still awaited overlap the same way (the packets are only
cleared on completion, so the second guard passes too). -/
theorem concurrent_drain_counterexample :
    (recRun recInit [RecEv.checkpointFire, RecEv.stopBegin]).inflight = 2 ∧
    ¬((recRun recInit [RecEv.checkpointFire, RecEv.stopBegin]).maxInflight ≤ 1) ∧
    (recRun recInit [RecEv.checkpointFire, RecEv.checkpointFire]).inflight = 2 := by
  refine ⟨by decide, by decide, by decide⟩

/-- C2 amended: the direction the claim elaborates does hold — once
`stop()` has begun, a checkpoint firing is rejected (it changes nothing),
every step leaves the recording flag off so this persists for the rest of
the session, and `stop`'s synchronous prefix turns the flag and the timer
off before its drain starts — but drain-and-encode is not mutually
exclusive in general: `stop()` invoked while a checkpoint's awaited
drain-and-encode is in flight starts a second, concurrent one (see the
counterexample). -/
theorem checkpoint_stop_exclusion_amended (s : RecSt)
    (hs : s.isRecording = false) :
    recStep s RecEv.checkpointFire = s ∧
    (∀ e : RecEv, (recStep s e).isRecording = false) ∧
    (∀ s₀ : RecSt, (recStep s₀ RecEv.stopBegin).isRecording = false ∧
      (recStep s₀ RecEv.stopBegin).timerActive = false) := by
  refine ⟨?_, ?_, ?_⟩
  · simp [recStep, hs]
  · intro e
    cases e with
    | checkpointFire => simp only [recStep]; split <;> simp [hs]
    | checkpointDone => simp [recStep, hs]
    | stopBegin => simp only [recStep]; split <;> simp
    | stopDone => simp [recStep, hs]
    | appendFrames n => simp [recStep, hs]
  · intro s₀
    refine ⟨?_, ?_⟩ <;> (simp only [recStep]; split <;> simp)

/-- Witness for `checkpoint_stop_exclusion_amended` at a stopped state. -/
theorem checkpoint_stop_exclusion_amended_witness :
    recStep ⟨false, false, 0, 5, 1, 1⟩ RecEv.checkpointFire =
      ⟨false, false, 0, 5, 1, 1⟩ ∧
    (∀ e : RecEv, (recStep ⟨false, false, 0, 5, 1, 1⟩ e).isRecording = false) ∧
    (∀ s₀ : RecSt, (recStep s₀ RecEv.stopBegin).isRecording = false ∧
      (recStep s₀ RecEv.stopBegin).timerActive = false) :=
  checkpoint_stop_exclusion_amended ⟨false, false, 0, 5, 1, 1⟩ rfl

/-! ## Scene assignment (src/src/transcription/utils/sceneAssignment.js)

Boundaries are half-open `[start, end)` intervals over seconds (JS
numbers, modelled by `ℚ`; the `end` field is `endTime` because `end` is
reserved in Lean).  A raw transcript line either fails the
`RE_STANDARD` regex (malformed) or matches it with a bracketed timestamp
whose colon-separated parts `parseInt` to the listed values (`none`
standing for `NaN`), a speaker token and a text. -/

structure Boundary where
  start : ℚ
  endTime : ℚ
  deriving Repr, DecidableEq

inductive RawLine where
  | malformed (s : String)
  | standard (tsParts : List (Option ℤ)) (speaker text : String)
  deriving Repr, DecidableEq

/-- `parseTimestampToSeconds` (sceneAssignment.js:15-29): `NaN` if any
part fails `parseInt`; `M:SS` and `H:MM:SS` supported, anything else
`NaN`.  `none` models `NaN`. -/
def parseTimestampToSeconds (parts : List (Option ℤ)) : Option ℤ :=
  if parts.any Option.isNone then none
  else
    match parts.filterMap id with
    | [m, s] => some (m * 60 + s)
    | [h, m, s] => some (h * 3600 + m * 60 + s)
    | _ => none

structure ParsedLine where
  startSeconds : ℤ
  speaker : String
  text : String
  deriving Repr, DecidableEq

/-- `parseTranscriptLine` (sceneAssignment.js:55-64): `null` on a
non-matching line or unparsable timestamp. -/
def parseTranscriptLine : RawLine → Option ParsedLine
  | .malformed _ => none
  | .standard parts sp tx =>
      (parseTimestampToSeconds parts).map (fun t => ⟨t, sp, tx⟩)

/-- The scan of `getSceneIndex` (sceneAssignment.js:39-48): first index
`k` with `s_k ≤ t < e_k`, as an `Option` (`none` for the source's `-1`). -/
def findScene (t : ℚ) : List Boundary → Option ℕ
  | [] => none
  | b :: bs =>
      if b.start ≤ t ∧ t < b.endTime then some 0
      else (findScene t bs).map (· + 1)

def getSceneIndex (t : ℚ) (bs : List Boundary) : ℤ :=
  match findScene t bs with
  | some k => (k : ℤ)
  | none => -1

/-- `boundariesFromEndTimes` (sceneAssignment.js:132-141), with the
running `start` made explicit. -/
def boundariesFromEndTimesAux : List ℚ → ℚ → List Boundary
  | [], _ => []
  | e :: es, start => ⟨start, e⟩ :: boundariesFromEndTimesAux es e

def boundariesFromEndTimes (endTimesSeconds : List ℚ) : List Boundary :=
  boundariesFromEndTimesAux endTimesSeconds 0

structure AssignedLine where
  line : RawLine
  scene_id : ℕ
  startSeconds : ℤ
  speaker : String
  text : String
  deriving Repr, DecidableEq

/-- `assignTranscriptToScenes` (sceneAssignment.js:150-171): skips lines
that fail to parse and lines whose start lies in no boundary
(`scene_id < 0`), keeps the rest with their scene index. -/
def assignTranscriptToScenes (lines : List RawLine) (bs : List Boundary) :
    List AssignedLine :=
  if bs = [] then []
  else
    lines.filterMap (fun l =>
      match parseTranscriptLine l with
      | none => none
      | some p =>
          match findScene (p.startSeconds : ℚ) bs with
          | none => none
          | some k => some ⟨l, k, p.startSeconds, p.speaker, p.text⟩)

lemma findScene_sound (t : ℚ) :
    ∀ (bs : List Boundary) (k : ℕ), findScene t bs = some k →
      ∃ hk : k < bs.length,
        (bs.get ⟨k, hk⟩).start ≤ t ∧ t < (bs.get ⟨k, hk⟩).endTime := by
  intro bs
  induction bs with
  | nil => intro k h; simp [findScene] at h
  | cons b bs ih =>
      intro k h
      by_cases hb : b.start ≤ t ∧ t < b.endTime
      · simp [findScene, hb] at h
        subst h
        exact ⟨by simp, hb⟩
      · simp [findScene, hb] at h
        obtain ⟨j, hj, rfl⟩ := h
        obtain ⟨hjl, hcont⟩ := ih j hj
        exact ⟨by simpa using Nat.succ_lt_succ hjl, by simpa using hcont⟩

lemma findScene_eq_of_mem (t : ℚ) :
    ∀ (bs : List Boundary), bs.Pairwise (fun a b => a.endTime ≤ b.start) →
      ∀ (k : ℕ) (hk : k < bs.length),
        (bs.get ⟨k, hk⟩).start ≤ t → t < (bs.get ⟨k, hk⟩).endTime →
        findScene t bs = some k := by
  intro bs
  induction bs with
  | nil => intro _ k hk; simp at hk
  | cons b bs ih =>
      intro hp k hk h1 h2
      rw [List.pairwise_cons] at hp
      obtain ⟨hhead, htail⟩ := hp
      match k with
      | 0 =>
          simp only [List.get] at h1 h2
          simp [findScene, h1, h2]
      | j + 1 =>
          simp only [List.get] at h1 h2
          have hjl : j < bs.length := by simpa using hk
          have hmem : bs.get ⟨j, hjl⟩ ∈ bs := List.get_mem bs j hjl
          have hble : b.endTime ≤ (bs.get ⟨j, hjl⟩).start := hhead _ hmem
          have hnb : ¬(b.start ≤ t ∧ t < b.endTime) := by
            rintro ⟨_, hlt⟩
            have : t < (bs.get ⟨j, hjl⟩).start := lt_of_lt_of_le hlt hble
            exact absurd h1 (not_le.mpr this)
          have := ih htail j hjl h1 h2
          simp [findScene, hnb, this]

lemma findScene_none_of_outside (t : ℚ) :
    ∀ bs : List Boundary, (∀ b ∈ bs, ¬(b.start ≤ t ∧ t < b.endTime)) →
      findScene t bs = none := by
  intro bs
  induction bs with
  | nil => intro _; rfl
  | cons b bs ih =>
      intro h
      have hb := h b (by simp)
      have := ih (fun x hx => h x (by simp [hx]))
      simp [findScene, hb, this]

/-- C7: under ordered disjoint boundaries, a parsed line at time `t` is
assigned to the unique scene `[s_k, e_k)` containing `t`; a line at a
scene's exact end is never assigned to that scene and goes to the next
one when that scene starts there; a line in no boundary, a malformed
line, or a line with an unparsable timestamp is dropped from the
assignment without disturbing any other line. -/
theorem scene_assignment_spec (bs : List Boundary)
    (hdisj : bs.Pairwise (fun a b => a.endTime ≤ b.start)) :
    (∀ (t : ℚ) (k : ℕ) (hk : k < bs.length),
        (bs.get ⟨k, hk⟩).start ≤ t → t < (bs.get ⟨k, hk⟩).endTime →
        findScene t bs = some k ∧
        ∀ (j : ℕ) (hj : j < bs.length),
          (bs.get ⟨j, hj⟩).start ≤ t → t < (bs.get ⟨j, hj⟩).endTime → j = k) ∧
    (∀ (k : ℕ) (hk : k < bs.length),
        findScene (bs.get ⟨k, hk⟩).endTime bs ≠ some k) ∧
    (∀ (k : ℕ) (hk1 : k + 1 < bs.length),
        (bs.get ⟨k + 1, hk1⟩).start = (bs.get ⟨k, by omega⟩).endTime →
        (bs.get ⟨k, by omega⟩).endTime < (bs.get ⟨k + 1, hk1⟩).endTime →
        findScene (bs.get ⟨k, by omega⟩).endTime bs = some (k + 1)) ∧
    (∀ t : ℚ, (∀ b ∈ bs, ¬(b.start ≤ t ∧ t < b.endTime)) →
        findScene t bs = none) ∧
    (∀ (xs ys : List RawLine) (l : RawLine),
        (parseTranscriptLine l = none ∨
          (∃ p, parseTranscriptLine l = some p ∧
            findScene (p.startSeconds : ℚ) bs = none)) →
        assignTranscriptToScenes (xs ++ l :: ys) bs =
          assignTranscriptToScenes (xs ++ ys) bs) := by
  refine ⟨?_, ?_, ?_, fun t => findScene_none_of_outside t bs, ?_⟩
  · intro t k hk h1 h2
    refine ⟨findScene_eq_of_mem t bs hdisj k hk h1 h2, ?_⟩
    intro j hj hj1 hj2
    have hone := findScene_eq_of_mem t bs hdisj k hk h1 h2
    have htwo := findScene_eq_of_mem t bs hdisj j hj hj1 hj2
    rw [hone] at htwo
    exact (Option.some_inj.mp htwo).symm
  · intro k hk hcontra
    obtain ⟨hk2, _, hlt⟩ := findScene_sound _ bs k hcontra
    exact absurd hlt (lt_irrefl _)
  · intro k hk1 hstart hlt
    exact findScene_eq_of_mem _ bs hdisj (k + 1) hk1 (le_of_eq hstart) hlt
  · intro xs ys l hl
    by_cases hbs : bs = []
    · simp [assignTranscriptToScenes, hbs]
    · rcases hl with h | ⟨p, hp, hfs⟩
      · simp [assignTranscriptToScenes, hbs, List.filterMap_append,
          List.filterMap_cons, h]
      · simp [assignTranscriptToScenes, hbs, List.filterMap_append,
          List.filterMap_cons, hp, hfs]

/-- Witness for `scene_assignment_spec` at the boundaries
`[0,10) , [10,20)`. -/
theorem scene_assignment_spec_witness :
    (∀ (t : ℚ) (k : ℕ) (hk : k < ([⟨0, 10⟩, ⟨10, 20⟩] : List Boundary).length),
        (([⟨0, 10⟩, ⟨10, 20⟩] : List Boundary).get ⟨k, hk⟩).start ≤ t →
        t < (([⟨0, 10⟩, ⟨10, 20⟩] : List Boundary).get ⟨k, hk⟩).endTime →
        findScene t [⟨0, 10⟩, ⟨10, 20⟩] = some k ∧
        ∀ (j : ℕ) (hj : j < ([⟨0, 10⟩, ⟨10, 20⟩] : List Boundary).length),
          (([⟨0, 10⟩, ⟨10, 20⟩] : List Boundary).get ⟨j, hj⟩).start ≤ t →
          t < (([⟨0, 10⟩, ⟨10, 20⟩] : List Boundary).get ⟨j, hj⟩).endTime → j = k) ∧
    (∀ (k : ℕ) (hk : k < ([⟨0, 10⟩, ⟨10, 20⟩] : List Boundary).length),
        findScene (([⟨0, 10⟩, ⟨10, 20⟩] : List Boundary).get ⟨k, hk⟩).endTime
          [⟨0, 10⟩, ⟨10, 20⟩] ≠ some k) ∧
    (∀ (k : ℕ) (hk1 : k + 1 < ([⟨0, 10⟩, ⟨10, 20⟩] : List Boundary).length),
        (([⟨0, 10⟩, ⟨10, 20⟩] : List Boundary).get ⟨k + 1, hk1⟩).start =
          (([⟨0, 10⟩, ⟨10, 20⟩] : List Boundary).get ⟨k, by omega⟩).endTime →
        (([⟨0, 10⟩, ⟨10, 20⟩] : List Boundary).get ⟨k, by omega⟩).endTime <
          (([⟨0, 10⟩, ⟨10, 20⟩] : List Boundary).get ⟨k + 1, hk1⟩).endTime →
        findScene (([⟨0, 10⟩, ⟨10, 20⟩] : List Boundary).get ⟨k, by omega⟩).endTime
          [⟨0, 10⟩, ⟨10, 20⟩] = some (k + 1)) ∧
    (∀ t : ℚ, (∀ b ∈ ([⟨0, 10⟩, ⟨10, 20⟩] : List Boundary),
        ¬(b.start ≤ t ∧ t < b.endTime)) →
        findScene t [⟨0, 10⟩, ⟨10, 20⟩] = none) ∧
    (∀ (xs ys : List RawLine) (l : RawLine),
        (parseTranscriptLine l = none ∨
          (∃ p, parseTranscriptLine l = some p ∧
            findScene ((p.startSeconds : ℚ)) [⟨0, 10⟩, ⟨10, 20⟩] = none)) →
        assignTranscriptToScenes (xs ++ l :: ys) [⟨0, 10⟩, ⟨10, 20⟩] =
          assignTranscriptToScenes (xs ++ ys) [⟨0, 10⟩, ⟨10, 20⟩]) :=
  scene_assignment_spec [⟨0, 10⟩, ⟨10, 20⟩] (by decide)

/-! ## Chunk builder (`chunkTranscript`, src/unnamed/part_007:92-132)

JS string primitives are modelled at the character level: `split(/\n/)`
by `splitLines`, `trim()` by `jsTrim` (ASCII whitespace suffices for the
transcripts at hand), `includes` by `strIncludes`.  The constants are the
ones of the referenced file: `VALUABLE_LINE_CHARS = 40` and an empty
`SKIPPABLE_WORDS` list (every entry is commented out there). -/

def isWsChar (c : Char) : Bool :=
  c = ' ' || c = '\t' || c = '\n' || c = '\r'

def jsTrim (s : String) : String :=
  ⟨((s.data.dropWhile isWsChar).reverse.dropWhile isWsChar).reverse⟩

def splitNl : List Char → List (List Char)
  | [] => [[]]
  | c :: cs =>
      match splitNl cs with
      | [] => [[c]]
      | h :: t => if c = '\n' then [] :: h :: t else (c :: h) :: t

def splitLines (s : String) : List String := (splitNl s.data).map String.mk

def leadsWith : List Char → List Char → Bool
  | [], _ => true
  | _ :: _, [] => false
  | a :: w, b :: s => a = b && leadsWith w s

def containsSeg : List Char → List Char → Bool
  | [], w => w.isEmpty
  | c :: rest, w => leadsWith w (c :: rest) || containsSeg rest w

def strIncludes (s w : String) : Bool := containsSeg s.data w.data

def VALUABLE_LINE_CHARS : ℕ := 40

def SKIPPABLE_WORDS : List String := []

/-- The two `continue` filters of the chunk loop: a line is skipped when it
is shorter than `VALUABLE_LINE_CHARS` or contains a skippable word. -/
def lineSkipped (l : String) : Bool :=
  decide (l.length < VALUABLE_LINE_CHARS) ||
    SKIPPABLE_WORDS.any (fun w => strIncludes l w)

/-- The lines the chunk loop actually consumes: `text.split(/\n/)` with
blank lines removed, then the skip filters applied. -/
def filteredLines (text : String) : List String :=
  ((splitLines text).filter (fun l => !(jsTrim l == ""))).filter
    (fun l => !lineSkipped l)

/-- `current.join("\n")`. -/
def joinNL : List String → String
  | [] => ""
  | [l] => l
  | l :: ls => l ++ "\n" ++ joinNL ls

/-- The accumulation loop of `chunkTranscript`, returning the chunks as
line groups (the source pushes `current.join("\n")`; the join is applied
afterwards).  `candidate` and the push condition
`candidate.length > maxChunkSize && current.length > 0` are verbatim. -/
def chunkLoop (maxChunkSize : ℕ) : List String → List String → List (List String)
  | [], current => if current.isEmpty then [] else [current]
  | l :: ls, current =>
      let candidate := if current.isEmpty then l else joinNL current ++ "\n" ++ l
      if maxChunkSize < candidate.length ∧ current ≠ [] then
        current :: chunkLoop maxChunkSize ls [l]
      else chunkLoop maxChunkSize ls (current ++ [l])

/-- `chunkTranscript(text, maxChunkSize)` including the final
`chunks.length ? chunks : [text]` fallback. -/
def chunkTranscript (text : String) (maxChunkSize : ℕ) : List String :=
  let chunks := (chunkLoop maxChunkSize (filteredLines text) []).map joinNL
  if chunks.isEmpty then [text] else chunks

lemma joinNL_append_singleton (l : String) :
    ∀ cur : List String, cur ≠ [] →
      joinNL (cur ++ [l]) = joinNL cur ++ "\n" ++ l := by
  intro cur
  induction cur with
  | nil => intro h; exact absurd rfl h
  | cons a cs ih =>
      intro _
      cases cs with
      | nil => simp [joinNL]
      | cons b cs2 =>
          have hih := ih (by simp)
          simp only [List.cons_append, List.append_eq, joinNL] at hih ⊢
          rw [hih]
          simp [String.append_assoc]

lemma chunkLoop_flatten (maxChunkSize : ℕ) :
    ∀ (ls cur : List String),
      (chunkLoop maxChunkSize ls cur).flatten = cur ++ ls := by
  intro ls
  induction ls with
  | nil =>
      intro cur
      by_cases hc : cur.isEmpty
      · have : cur = [] := by simpa [List.isEmpty_iff] using hc
        simp [chunkLoop, hc, this]
      · simp [chunkLoop, hc]
  | cons l ls ih =>
      intro cur
      simp only [chunkLoop]
      by_cases hcond :
          maxChunkSize <
              (if cur.isEmpty then l else joinNL cur ++ "\n" ++ l).length ∧
            cur ≠ []
      · rw [if_pos hcond]
        simp [ih]
      · rw [if_neg hcond]
        simp [ih]

/-- Every chunk emitted by the loop either fits in `maxChunkSize` or is a
single line. -/
def chunkOk (maxChunkSize : ℕ) (g : List String) : Prop :=
  (joinNL g).length ≤ maxChunkSize ∨ ∃ l, g = [l]

lemma chunkLoop_ok (maxChunkSize : ℕ) :
    ∀ (ls cur : List String), chunkOk maxChunkSize cur →
      ∀ g ∈ chunkLoop maxChunkSize ls cur, chunkOk maxChunkSize g := by
  intro ls
  induction ls with
  | nil =>
      intro cur hcur g hg
      by_cases hc : cur.isEmpty
      · simp [chunkLoop, hc] at hg
      · simp [chunkLoop, hc] at hg
        exact hg ▸ hcur
  | cons l ls ih =>
      intro cur hcur g hg
      simp only [chunkLoop] at hg
      by_cases hcond :
          maxChunkSize <
              (if cur.isEmpty then l else joinNL cur ++ "\n" ++ l).length ∧
            cur ≠ []
      · rw [if_pos hcond] at hg
        rcases List.mem_cons.mp hg with rfl | hg
        · exact hcur
        · exact ih [l] (Or.inr ⟨l, rfl⟩) g hg
      · rw [if_neg hcond] at hg
        refine ih (cur ++ [l]) ?_ g hg
        by_cases hnil : cur = []
        · subst hnil
          exact Or.inr ⟨l, rfl⟩
        · have hempty : cur.isEmpty = false := by
            simpa [List.isEmpty_iff] using hnil
          have hlen :
              ¬maxChunkSize < (joinNL cur ++ "\n" ++ l).length := by
            intro hlt
            exact hcond (by simpa [hempty] using And.intro hlt hnil)
          left
          rw [joinNL_append_singleton l cur hnil]
          omega

/-- C8 counterexample: with three short lines every line is filtered out,
so the builder returns the whole original text as one chunk: the chunk
exceeds `maxChunkChars = 10`, is not a single filtered line, and the
chunks do not reproduce the (empty) filtered line sequence. -/
theorem chunk_fallback_counterexample :
    chunkTranscript "aaa\nbbb\nccc" 10 = ["aaa\nbbb\nccc"] ∧
    filteredLines "aaa\nbbb\nccc" = [] ∧
    ∃ c ∈ chunkTranscript "aaa\nbbb\nccc" 10,
      10 < c.length ∧ ¬∃ l ∈ filteredLines "aaa\nbbb\nccc", c = l := by
  refine ⟨by decide, by decide, ?_⟩
  refine ⟨"aaa\nbbb\nccc", by decide, by decide, by decide⟩

/-- C8 amended: provided at least one line survives the filters, the
chunks are the joins of consecutive groups of whole filtered lines whose
concatenation reproduces the filtered line sequence exactly, and a chunk
longer than `maxChunkChars` is a single (oversized) filtered line; when no
line survives, the builder instead returns the entire original text as one
chunk (see the counterexample). -/
theorem chunk_builder_amended (text : String) (maxChunkSize : ℕ)
    (h : filteredLines text ≠ []) :
    chunkTranscript text maxChunkSize =
      (chunkLoop maxChunkSize (filteredLines text) []).map joinNL ∧
    (chunkLoop maxChunkSize (filteredLines text) []).flatten =
      filteredLines text ∧
    (∀ c ∈ chunkTranscript text maxChunkSize,
      maxChunkSize < c.length → ∃ l ∈ filteredLines text, c = l) := by
  have hflat := chunkLoop_flatten maxChunkSize (filteredLines text) []
  simp only [List.nil_append] at hflat
  have hgroups : chunkLoop maxChunkSize (filteredLines text) [] ≠ [] := by
    intro hg
    rw [hg] at hflat
    exact h hflat.symm
  have hchunks :
      ((chunkLoop maxChunkSize (filteredLines text) []).map joinNL).isEmpty = false := by
    rcases hg : chunkLoop maxChunkSize (filteredLines text) [] with _ | _
    · exact absurd hg hgroups
    · simp
  have heq : chunkTranscript text maxChunkSize =
      (chunkLoop maxChunkSize (filteredLines text) []).map joinNL := by
    simp only [chunkTranscript]
    rw [if_neg (by simp [hchunks])]
  refine ⟨heq, hflat, ?_⟩
  intro c hc hlong
  rw [heq] at hc
  obtain ⟨g, hg, rfl⟩ := List.mem_map.mp hc
  have hok := chunkLoop_ok maxChunkSize (filteredLines text) []
    (Or.inl (by simp [joinNL])) g hg
  rcases hok with hfits | ⟨l, rfl⟩
  · omega
  · refine ⟨l, ?_, by simp [joinNL]⟩
    rw [← hflat]
    exact List.mem_flatten.mpr ⟨[l], hg, by simp⟩

/-- Witness for `chunk_builder_amended` on a single 40-character line. -/
theorem chunk_builder_amended_witness :
    chunkTranscript "0123456789012345678901234567890123456789" 4000 =
      (chunkLoop 4000
        (filteredLines "0123456789012345678901234567890123456789") []).map joinNL ∧
    (chunkLoop 4000
        (filteredLines "0123456789012345678901234567890123456789") []).flatten =
      filteredLines "0123456789012345678901234567890123456789" ∧
    (∀ c ∈ chunkTranscript "0123456789012345678901234567890123456789" 4000,
      4000 < c.length →
        ∃ l ∈ filteredLines "0123456789012345678901234567890123456789", c = l) :=
  chunk_builder_amended "0123456789012345678901234567890123456789" 4000
    (by decide)

/-! ## Chronology merger (`transcribeWithSpeakers`, src/unnamed/part_006:150-243)

`speakerOrder` is the loop that walks `speakingSegments` in list order and
records each speaker's first occurrence (skipping speakers without a
transcript); the subsequent output loop looks the speaker up, cleans the
text and emits one block per speaker whose cleaned text is non-empty.

`cleanTranscriptText` first strips ANSI/timestamp escape codes with a
battery of regexes and then collapses whitespace runs and trims.  The
regex stripping is kept abstract as a `stripCodes` parameter (its only
property used by any claim is that it maps whitespace-only strings to
whitespace-only strings, which the deleting regexes plainly do); the
whitespace collapse (`replace(/\s+/g, ' ')`) and `trim()` are modelled
exactly. -/

structure SpeakSeg where
  userId : String
  startTime : ℕ
  deriving Repr, DecidableEq

structure UserTranscript where
  userName : String
  text : String
  deriving Repr, DecidableEq

def speakerOrder (uts : List (String × UserTranscript)) :
    List SpeakSeg → List String → List (String × ℕ)
  | [], _ => []
  | seg :: rest, seen =>
      if seg.userId ∈ seen ∨ uts.lookup seg.userId = none then
        speakerOrder uts rest seen
      else
        (seg.userId, seg.startTime) :: speakerOrder uts rest (seg.userId :: seen)

def squeezeSpaces : List Char → List Char
  | [] => []
  | [c] => [c]
  | a :: b :: cs =>
      if a = ' ' ∧ b = ' ' then squeezeSpaces (b :: cs)
      else a :: squeezeSpaces (b :: cs)

/-- `replace(/\s+/g, ' ')`: every whitespace character becomes a space and
runs of spaces collapse to one. -/
def collapseWs (s : String) : String :=
  ⟨squeezeSpaces (s.data.map (fun c => if isWsChar c then ' ' else c))⟩

def cleanTranscriptText (stripCodes : String → String) (text : String) : String :=
  jsTrim (collapseWs (stripCodes text))

/-- The per-speaker blocks appended by the ordered output loop: speaker id
(the loop variable), user name, first-appearance time, cleaned text;
speakers whose cleaned text is empty are skipped. -/
def mergeEmissions (stripCodes : String → String)
    (uts : List (String × UserTranscript)) (segs : List SpeakSeg) :
    List (String × String × ℕ × String) :=
  (speakerOrder uts segs []).filterMap (fun su =>
    match uts.lookup su.1 with
    | none => none
    | some u =>
        let c := cleanTranscriptText stripCodes u.text
        if c = "" then none else some (su.1, u.userName, su.2, c))

def pad2 (n : ℕ) : String :=
  if n < 10 then "0" ++ toString n else toString n

/-- `formatTime(ms)`: `MM:SS` with zero padding. -/
def formatTime (ms : ℕ) : String :=
  pad2 (ms / 1000 / 60) ++ ":" ++ pad2 (ms / 1000 % 60)

/-- The text blocks actually concatenated into the transcript body:
`[MM:SS] **userName:**\n<cleaned text>\n\n` per emitted speaker. -/
def mergedTranscriptBody (stripCodes : String → String)
    (uts : List (String × UserTranscript)) (segs : List SpeakSeg) : String :=
  String.join ((mergeEmissions stripCodes uts segs).map
    (fun e => "[" ++ formatTime e.2.2.1 ++ "] **" ++ e.2.1 ++ ":**\n" ++
      e.2.2.2 ++ "\n\n"))

lemma speakerOrder_mem (uts : List (String × UserTranscript)) :
    ∀ (segs : List SpeakSeg) (seen : List String) (uid : String),
      uid ∈ (speakerOrder uts segs seen).map Prod.fst ↔
        (uid ∉ seen ∧ (uts.lookup uid).isSome ∧ ∃ seg ∈ segs, seg.userId = uid) := by
  intro segs
  induction segs with
  | nil => simp [speakerOrder]
  | cons seg rest ih =>
      intro seen uid
      simp only [speakerOrder]
      by_cases hcond : seg.userId ∈ seen ∨ uts.lookup seg.userId = none
      · rw [if_pos hcond, ih]
        constructor
        · rintro ⟨h1, h2, seg', hseg', h3⟩
          exact ⟨h1, h2, seg', List.mem_cons_of_mem _ hseg', h3⟩
        · rintro ⟨h1, h2, seg', hseg', h3⟩
          rcases List.mem_cons.mp hseg' with rfl | hmem
          · rcases hcond with hc | hc
            · exact absurd (h3 ▸ hc) h1
            · rw [h3] at hc
              rw [hc] at h2
              simp at h2
          · exact ⟨h1, h2, seg', hmem, h3⟩
      · rw [if_neg hcond]
        push_neg at hcond
        simp only [List.map_cons, List.mem_cons]
        rw [ih]
        constructor
        · rintro (rfl | ⟨h1, h2, seg', hseg', h3⟩)
          · exact ⟨hcond.1, Option.isSome_iff_ne_none.mpr hcond.2,
              seg, Or.inl rfl, rfl⟩
          · exact ⟨fun hin => h1 (List.mem_cons_of_mem _ hin), h2,
              seg', Or.inr hseg', h3⟩
        · rintro ⟨h1, h2, seg', hseg', h3⟩
          by_cases heq : uid = seg.userId
          · exact Or.inl heq
          · rcases hseg' with rfl | hmem
            · exact absurd h3.symm heq
            · refine Or.inr ⟨?_, h2, seg', hmem, h3⟩
              intro hin
              rcases List.mem_cons.mp hin with h | h
              · exact heq h
              · exact h1 h

lemma speakerOrder_source (uts : List (String × UserTranscript)) :
    ∀ (segs : List SpeakSeg) (seen : List String) (p : String × ℕ),
      p ∈ speakerOrder uts segs seen →
        ∃ seg ∈ segs, seg.userId = p.1 ∧ seg.startTime = p.2 := by
  intro segs
  induction segs with
  | nil => intro seen p hp; simp [speakerOrder] at hp
  | cons seg rest ih =>
      intro seen p hp
      simp only [speakerOrder] at hp
      by_cases hcond : seg.userId ∈ seen ∨ uts.lookup seg.userId = none
      · rw [if_pos hcond] at hp
        obtain ⟨seg', hseg', h⟩ := ih seen p hp
        exact ⟨seg', List.mem_cons_of_mem _ hseg', h⟩
      · rw [if_neg hcond] at hp
        rcases List.mem_cons.mp hp with rfl | hp
        · exact ⟨seg, List.mem_cons_self _ _, rfl, rfl⟩
        · obtain ⟨seg', hseg', h⟩ := ih _ p hp
          exact ⟨seg', List.mem_cons_of_mem _ hseg', h⟩

lemma speakerOrder_first (uts : List (String × UserTranscript)) :
    ∀ (segs : List SpeakSeg) (seen : List String) (uid : String) (t : ℕ),
      (uid, t) ∈ speakerOrder uts segs seen →
        ∃ seg, segs.find? (fun s => s.userId == uid) = some seg ∧
          seg.startTime = t ∧ seg.userId = uid := by
  intro segs
  induction segs with
  | nil => intro seen uid t h; simp [speakerOrder] at h
  | cons seg rest ih =>
      intro seen uid t h
      simp only [speakerOrder] at h
      by_cases hcond : seg.userId ∈ seen ∨ uts.lookup seg.userId = none
      · rw [if_pos hcond] at h
        have hmem : uid ∈ (speakerOrder uts rest seen).map Prod.fst :=
          List.mem_map.mpr ⟨(uid, t), h, rfl⟩
        have hprop := (speakerOrder_mem uts rest seen uid).mp hmem
        have hne : seg.userId ≠ uid := by
          rintro rfl
          rcases hcond with hc | hc
          · exact hprop.1 hc
          · rw [hc] at hprop
            simp at hprop
        obtain ⟨seg', hfind, hrest⟩ := ih seen uid t h
        refine ⟨seg', ?_, hrest⟩
        rw [List.find?_cons_of_neg _ (by simp [hne]), hfind]
      · rw [if_neg hcond] at h
        rcases List.mem_cons.mp h with heq | h
        · have h1 : seg.userId = uid := congrArg Prod.fst heq.symm
          have h2 : seg.startTime = t := congrArg Prod.snd heq.symm
          exact ⟨seg, by rw [List.find?_cons_of_pos _ (by simp [h1])], h2, h1⟩
        · have hmem : uid ∈ (speakerOrder uts rest (seg.userId :: seen)).map Prod.fst :=
            List.mem_map.mpr ⟨(uid, t), h, rfl⟩
          have hprop := (speakerOrder_mem uts rest _ uid).mp hmem
          have hne : seg.userId ≠ uid := by
            rintro rfl
            exact hprop.1 (List.mem_cons_self _ _)
          obtain ⟨seg', hfind, hrest⟩ := ih _ uid t h
          refine ⟨seg', ?_, hrest⟩
          rw [List.find?_cons_of_neg _ (by simp [hne]), hfind]

lemma speakerOrder_nodup (uts : List (String × UserTranscript)) :
    ∀ (segs : List SpeakSeg) (seen : List String),
      ((speakerOrder uts segs seen).map Prod.fst).Nodup := by
  intro segs
  induction segs with
  | nil => intro seen; simp [speakerOrder]
  | cons seg rest ih =>
      intro seen
      simp only [speakerOrder]
      by_cases hcond : seg.userId ∈ seen ∨ uts.lookup seg.userId = none
      · rw [if_pos hcond]; exact ih seen
      · rw [if_neg hcond]
        simp only [List.map_cons, List.nodup_cons]
        refine ⟨?_, ih _⟩
        intro hin
        have := (speakerOrder_mem uts rest _ seg.userId).mp hin
        exact this.1 (List.mem_cons_self _ _)

lemma speakerOrder_sorted (uts : List (String × UserTranscript))
    (segs : List SpeakSeg)
    (hsorted : segs.Pairwise (fun a b => a.startTime ≤ b.startTime)) :
    ∀ seen : List String,
      (speakerOrder uts segs seen).Pairwise (fun x y => x.2 ≤ y.2) := by
  induction segs with
  | nil => intro seen; simp [speakerOrder]
  | cons seg rest ih =>
      intro seen
      rw [List.pairwise_cons] at hsorted
      obtain ⟨hhead, htail⟩ := hsorted
      simp only [speakerOrder]
      by_cases hcond : seg.userId ∈ seen ∨ uts.lookup seg.userId = none
      · rw [if_pos hcond]; exact ih htail seen
      · rw [if_neg hcond]
        rw [List.pairwise_cons]
        refine ⟨?_, ih htail _⟩
        intro y hy
        obtain ⟨seg', hseg', _, hst⟩ := speakerOrder_source uts rest _ y hy
        rw [← hst]
        exact hhead seg' hseg'

lemma pairwise_filterMap_of_pairwise {α β : Type} {R : α → α → Prop}
    {S : β → β → Prop} (g : α → Option β)
    (hg : ∀ a a' b b', g a = some b → g a' = some b' → R a a' → S b b') :
    ∀ l : List α, l.Pairwise R → (l.filterMap g).Pairwise S := by
  intro l
  induction l with
  | nil => intro _; simp
  | cons a l ih =>
      intro hp
      rw [List.pairwise_cons] at hp
      obtain ⟨hhead, htail⟩ := hp
      rw [List.filterMap_cons]
      cases hga : g a with
      | none => exact ih htail
      | some b =>
          rw [List.pairwise_cons]
          refine ⟨?_, ih htail⟩
          intro b' hb'
          obtain ⟨a', ha', hga'⟩ := List.mem_filterMap.mp hb'
          exact hg a a' b b' hga hga' (hhead a' ha')

lemma mem_squeezeSpaces : ∀ (l : List Char) (c : Char),
    c ∈ squeezeSpaces l → c ∈ l := by
  intro l
  induction l with
  | nil => intro c h; simp [squeezeSpaces] at h
  | cons a l ih =>
      intro c h
      cases l with
      | nil => simpa [squeezeSpaces] using h
      | cons b l2 =>
          simp only [squeezeSpaces] at h
          by_cases hab : a = ' ' ∧ b = ' '
          · rw [if_pos hab] at h
            exact List.mem_cons_of_mem _ (ih c h)
          · rw [if_neg hab] at h
            rcases List.mem_cons.mp h with rfl | h
            · exact List.mem_cons_self _ _
            · exact List.mem_cons_of_mem _ (ih c h)

lemma jsTrim_all_ws (s : String) (h : ∀ c ∈ s.data, isWsChar c = true) :
    jsTrim s = "" := by
  have hdrop : s.data.dropWhile isWsChar = [] :=
    List.dropWhile_eq_nil_iff.mpr h
  simp [jsTrim, hdrop]

lemma cleanTranscriptText_all_ws (stripCodes : String → String)
    (hws : ∀ s : String, (∀ c ∈ s.data, isWsChar c = true) →
      ∀ c ∈ (stripCodes s).data, isWsChar c = true)
    (text : String) (h : ∀ c ∈ text.data, isWsChar c = true) :
    cleanTranscriptText stripCodes text = "" := by
  apply jsTrim_all_ws
  intro c hc
  simp only [collapseWs] at hc
  have hmem := mem_squeezeSpaces _ c hc
  obtain ⟨c', hc', heq⟩ := List.mem_map.mp hmem
  by_cases hw : isWsChar c' = true
  · rw [if_pos hw] at heq
    rw [← heq]
    rfl
  · rw [if_neg hw] at heq
    rw [← heq]
    exact hws text h c' hc'

/-- C9 counterexample: with both speakers carrying non-empty texts and the
(non-empty) segment list `[(u1, 12000ms), (u2, 3000ms)]` — each speaker's
first closed segment — the merger emits `speaker1` before `speaker2`, so
the emitted first-appearance times `[12000, 3000]` are not ordered by the
startMs of the speakers' first closed segments. -/
theorem merge_order_counterexample :
    (mergeEmissions id
        [("u1", ⟨"speaker1", "hello there"⟩), ("u2", ⟨"speaker2", "general kenobi"⟩)]
        [⟨"u1", 12000⟩, ⟨"u2", 3000⟩]).map (fun e => e.2.1) =
      ["speaker1", "speaker2"] ∧
    (mergeEmissions id
        [("u1", ⟨"speaker1", "hello there"⟩), ("u2", ⟨"speaker2", "general kenobi"⟩)]
        [⟨"u1", 12000⟩, ⟨"u2", 3000⟩]).map (fun e => e.2.2.1) = [12000, 3000] ∧
    ¬((mergeEmissions id
        [("u1", ⟨"speaker1", "hello there"⟩), ("u2", ⟨"speaker2", "general kenobi"⟩)]
        [⟨"u1", 12000⟩, ⟨"u2", 3000⟩]).map (fun e => e.2.2.1)).Pairwise (· ≤ ·) := by
  refine ⟨by decide, by decide, ?_⟩
  intro h
  have : (12000 : ℕ) ≤ 3000 := by
    have heq : (mergeEmissions id
        [("u1", ⟨"speaker1", "hello there"⟩), ("u2", ⟨"speaker2", "general kenobi"⟩)]
        [⟨"u1", 12000⟩, ⟨"u2", 3000⟩]).map (fun e => e.2.2.1) = [12000, 3000] := by decide
    rw [heq] at h
    exact (List.pairwise_cons.mp h).1 3000 (by decide)
  omega

/-- C9 amended: when the segment list is sorted by `startMs` (as a
chronological segment list is), the merger emits each speaker with a
non-empty cleaned text and at least one segment exactly once, in
non-decreasing order of (and labelled with) the `startMs` of the speaker's
first segment, with the speaker's full cleaned text; speakers with
empty or whitespace-only text are omitted entirely. -/
theorem merge_chronology_amended (stripCodes : String → String)
    (uts : List (String × UserTranscript)) (segs : List SpeakSeg)
    (hsorted : segs.Pairwise (fun a b => a.startTime ≤ b.startTime))
    (hws : ∀ s : String, (∀ c ∈ s.data, isWsChar c = true) →
      ∀ c ∈ (stripCodes s).data, isWsChar c = true) :
    ((mergeEmissions stripCodes uts segs).map (fun e => e.1)).Nodup ∧
    (∀ uid : String,
      uid ∈ (mergeEmissions stripCodes uts segs).map (fun e => e.1) ↔
        ((∃ u, uts.lookup uid = some u ∧
            cleanTranscriptText stripCodes u.text ≠ "") ∧
          ∃ seg ∈ segs, seg.userId = uid)) ∧
    (∀ e ∈ mergeEmissions stripCodes uts segs,
      ∃ u, uts.lookup e.1 = some u ∧ e.2.1 = u.userName ∧
        e.2.2.2 = cleanTranscriptText stripCodes u.text ∧
        ∃ seg, segs.find? (fun s => s.userId == e.1) = some seg ∧
          e.2.2.1 = seg.startTime) ∧
    ((mergeEmissions stripCodes uts segs).map (fun e => e.2.2.1)).Pairwise (· ≤ ·) ∧
    (∀ (uid : String) (u : UserTranscript), uts.lookup uid = some u →
      (∀ c ∈ u.text.data, isWsChar c = true) →
      uid ∉ (mergeEmissions stripCodes uts segs).map (fun e => e.1)) := by
  have glemma : ∀ (su : String × ℕ) (u : UserTranscript),
      uts.lookup su.1 = some u → cleanTranscriptText stripCodes u.text ≠ "" →
      (match uts.lookup su.1 with
        | none => none
        | some u =>
            let c := cleanTranscriptText stripCodes u.text
            if c = "" then none else some (su.1, u.userName, su.2, c)) =
        some (su.1, u.userName, su.2, cleanTranscriptText stripCodes u.text) := by
    intro su u hl hc
    rw [hl]
    simp [hc]
  have gsome : ∀ (su : String × ℕ) (e : String × String × ℕ × String),
      (match uts.lookup su.1 with
        | none => none
        | some u =>
            let c := cleanTranscriptText stripCodes u.text
            if c = "" then none else some (su.1, u.userName, su.2, c)) = some e →
      ∃ u, uts.lookup su.1 = some u ∧
        cleanTranscriptText stripCodes u.text ≠ "" ∧
        e = (su.1, u.userName, su.2, cleanTranscriptText stripCodes u.text) := by
    intro su e h
    cases hl : uts.lookup su.1 with
    | none => rw [hl] at h; simp at h
    | some u =>
        rw [hl] at h
        simp only at h
        by_cases hc : cleanTranscriptText stripCodes u.text = ""
        · rw [if_pos hc] at h; simp at h
        · rw [if_neg hc] at h
          exact ⟨u, rfl, hc, (Option.some_inj.mp h).symm⟩
  have hmemiff : ∀ uid : String,
      uid ∈ (mergeEmissions stripCodes uts segs).map (fun e => e.1) ↔
        ((∃ u, uts.lookup uid = some u ∧
            cleanTranscriptText stripCodes u.text ≠ "") ∧
          ∃ seg ∈ segs, seg.userId = uid) := by
    intro uid
    constructor
    · intro h
      obtain ⟨e, he, rfl⟩ := List.mem_map.mp h
      obtain ⟨su, hsu, hg⟩ := List.mem_filterMap.mp he
      obtain ⟨u, hl, hc, rfl⟩ := gsome su e hg
      refine ⟨⟨u, hl, hc⟩, ?_⟩
      have hm : su.1 ∈ (speakerOrder uts segs []).map Prod.fst :=
        List.mem_map.mpr ⟨su, hsu, rfl⟩
      exact ((speakerOrder_mem uts segs [] su.1).mp hm).2.2
    · rintro ⟨⟨u, hl, hc⟩, seg, hseg, huid⟩
      have hm : uid ∈ (speakerOrder uts segs []).map Prod.fst :=
        (speakerOrder_mem uts segs [] uid).mpr
          ⟨by simp, by simp [hl], seg, hseg, huid⟩
      obtain ⟨su, hsu, hfst1⟩ := List.mem_map.mp hm
      refine List.mem_map.mpr
        ⟨(su.1, u.userName, su.2, cleanTranscriptText stripCodes u.text), ?_, hfst1⟩
      exact List.mem_filterMap.mpr
        ⟨su, hsu, glemma su u (by rw [hfst1]; exact hl) hc⟩
  refine ⟨?_, hmemiff, ?_, ?_, ?_⟩
  · have hnd : (speakerOrder uts segs []).Pairwise (fun x y => x.1 ≠ y.1) :=
      List.pairwise_map.mp (speakerOrder_nodup uts segs [])
    have hpw : (mergeEmissions stripCodes uts segs).Pairwise
        (fun a b => a.1 ≠ b.1) := by
      refine pairwise_filterMap_of_pairwise _ ?_ _ hnd
      intro a a' b b' hb hb' hR
      obtain ⟨u, _, _, rfl⟩ := gsome a b hb
      obtain ⟨u', _, _, rfl⟩ := gsome a' b' hb'
      simpa using hR
    exact List.pairwise_map.mpr hpw
  · intro e he
    obtain ⟨su, hsu, hg⟩ := List.mem_filterMap.mp he
    obtain ⟨u, hl, hc, rfl⟩ := gsome su e hg
    refine ⟨u, hl, rfl, rfl, ?_⟩
    obtain ⟨seg, hfind, hst, _⟩ :=
      speakerOrder_first uts segs [] su.1 su.2 (by simpa using hsu)
    exact ⟨seg, hfind, hst.symm⟩
  · have hso := speakerOrder_sorted uts segs hsorted []
    have hpw : (mergeEmissions stripCodes uts segs).Pairwise
        (fun a b => a.2.2.1 ≤ b.2.2.1) := by
      refine pairwise_filterMap_of_pairwise _ ?_ _ hso
      intro a a' b b' hb hb' hR
      obtain ⟨u, _, _, rfl⟩ := gsome a b hb
      obtain ⟨u', _, _, rfl⟩ := gsome a' b' hb'
      simpa using hR
    exact List.pairwise_map.mpr hpw
  · intro uid u hl hwstext hin
    obtain ⟨⟨u', hl', hc'⟩, _⟩ := (hmemiff uid).mp hin
    rw [hl] at hl'
    obtain rfl := Option.some_inj.mp hl'
    exact hc' (cleanTranscriptText_all_ws stripCodes hws u.text hwstext)

/-- The spec's scenario: three speakers with non-empty texts. -/
def scenarioUts : List (String × UserTranscript) :=
  [("u1", ⟨"speaker1", "ciao a tutti"⟩), ("u2", ⟨"speaker2", "salve gente"⟩),
    ("u3", ⟨"speaker3", "buonasera"⟩)]

/-- The spec's scenario segment list, sorted by startMs: first closed
segments at 3 s, 12 s and 40 s. -/
def scenarioSegs : List SpeakSeg :=
  [⟨"u2", 3000⟩, ⟨"u1", 12000⟩, ⟨"u3", 40000⟩]

/-- Witness for `merge_chronology_amended` on the spec's scenario, with the
resulting order `speaker2, speaker1, speaker3` checked concretely. -/
theorem merge_chronology_amended_witness :
    ((mergeEmissions id scenarioUts scenarioSegs).map (fun e => e.1)).Nodup ∧
    (∀ uid : String,
      uid ∈ (mergeEmissions id scenarioUts scenarioSegs).map (fun e => e.1) ↔
        ((∃ u, scenarioUts.lookup uid = some u ∧
            cleanTranscriptText id u.text ≠ "") ∧
          ∃ seg ∈ scenarioSegs, seg.userId = uid)) ∧
    (∀ e ∈ mergeEmissions id scenarioUts scenarioSegs,
      ∃ u, scenarioUts.lookup e.1 = some u ∧ e.2.1 = u.userName ∧
        e.2.2.2 = cleanTranscriptText id u.text ∧
        ∃ seg, scenarioSegs.find? (fun s => s.userId == e.1) = some seg ∧
          e.2.2.1 = seg.startTime) ∧
    ((mergeEmissions id scenarioUts scenarioSegs).map
        (fun e => e.2.2.1)).Pairwise (· ≤ ·) ∧
    (∀ (uid : String) (u : UserTranscript),
      scenarioUts.lookup uid = some u →
      (∀ c ∈ u.text.data, isWsChar c = true) →
      uid ∉ (mergeEmissions id scenarioUts scenarioSegs).map (fun e => e.1)) ∧
    (mergeEmissions id scenarioUts scenarioSegs).map (fun e => e.2.1) =
      ["speaker2", "speaker1", "speaker3"] := by
  have h := merge_chronology_amended id scenarioUts scenarioSegs
    (by decide) (fun s hs => hs)
  exact ⟨h.1, h.2.1, h.2.2.1, h.2.2.2.1, h.2.2.2.2, by decide⟩

end DndBot
